import Mathlib

/-!
# Verification of the coordinate/uncertainty converter
# of the NIRISS AMI binary-fit notebook

The notebook `niriss_ami_binary/3_niriss_ami_binary.ipynb` defines two pure
helper functions:

```python
def mag_diff(flux_ratio):
    # for flux ratio f_a/f_b, calculate magnitude difference m_a - m_b
    return -2.5 * np.log10(flux_ratio)

def convert_params(x, y, f, ex, ey, ef, sigma=1):
    sep = np.sqrt(x**2 + y**2)
    pa = 360 + np.rad2deg(np.arctan2(x, y))
    dm = mag_diff(f)
    sep_unc = np.sqrt((x/sep*ex)**2+(y/sep*ey)**2) * sigma
    pa_unc = np.rad2deg(np.sqrt((y/sep**2*ex)**2+(-x/sep**2*ey)**2)) * sigma
    dm_upper = mag_diff(f + ef*sigma)
    dm_lower = mag_diff(f - ef*sigma)
    return sep, pa, dm, sep_unc, pa_unc, dm_upper, dm_lower
```

This file embeds the two functions over `ℝ` (idealised real arithmetic in
place of IEEE doubles) and proves the specified properties about them.
`np.arctan2` is embedded by its documented quadrant convention, with values
in `(-π, π]`, and `np.log10` by `Real.logb 10`.
-/

open Real

/-- `np.rad2deg`: convert an angle from radians to degrees. -/
noncomputable def rad2deg (r : ℝ) : ℝ := r * (180 / π)

/-- `np.arctan2 a b`: the signed angle of the point `(b, a)`, i.e. the
quadrant-correct arctangent of `a / b`, following the C/numpy `atan2`
convention with range `(-π, π]` and `arctan2 0 0 = 0`. -/
noncomputable def arctan2 (a b : ℝ) : ℝ :=
  if 0 < b then arctan (a / b)
  else if b < 0 then
    if 0 ≤ a then arctan (a / b) + π else arctan (a / b) - π
  else
    if 0 < a then π / 2 else if a < 0 then -(π / 2) else 0

/-- `mag_diff`: for flux ratio `f_a/f_b`, the magnitude difference
`m_a - m_b = -2.5 * log10 (flux_ratio)`. -/
noncomputable def mag_diff (flux_ratio : ℝ) : ℝ := -2.5 * logb 10 flux_ratio

/-- The 7-tuple returned by `convert_params`, with the notebook's names. -/
structure BinaryParams where
  sep : ℝ
  pa : ℝ
  dm : ℝ
  sep_unc : ℝ
  pa_unc : ℝ
  dm_upper : ℝ
  dm_lower : ℝ

/-- `convert_params`: convert binary params from (ra, dec, flux ratio) to
(separation, position angle, magnitude difference) with propagated
uncertainties scaled by `sigma` (the notebook's default is `sigma = 1`). -/
noncomputable def convert_params (x y f ex ey ef sigma : ℝ) : BinaryParams :=
  let sep := Real.sqrt (x ^ 2 + y ^ 2)
  let pa := 360 + rad2deg (arctan2 x y)
  let dm := mag_diff f
  let sep_unc := Real.sqrt ((x / sep * ex) ^ 2 + (y / sep * ey) ^ 2) * sigma
  let pa_unc := rad2deg (Real.sqrt ((y / sep ^ 2 * ex) ^ 2 + (-x / sep ^ 2 * ey) ^ 2)) * sigma
  let dm_upper := mag_diff (f + ef * sigma)
  let dm_lower := mag_diff (f - ef * sigma)
  ⟨sep, pa, dm, sep_unc, pa_unc, dm_upper, dm_lower⟩

/-- `np.log10` as a partial function: it has a finite real value exactly on
positive arguments; on `x ≤ 0` numpy produces an invalid result
(`-inf` or `nan`), modelled as `none`. -/
noncomputable def log10Opt (x : ℝ) : Option ℝ :=
  if 0 < x then some (logb 10 x) else none

/-- `mag_diff` with the partiality of `np.log10` made explicit. -/
noncomputable def mag_diffOpt (flux_ratio : ℝ) : Option ℝ :=
  (log10Opt flux_ratio).map (fun l => -2.5 * l)

/-- The result of `convert_params` with the partiality of the three
magnitude values made explicit; the other four fields are total. -/
structure BinaryParamsOpt where
  sep : ℝ
  pa : ℝ
  dm : Option ℝ
  sep_unc : ℝ
  pa_unc : ℝ
  dm_upper : Option ℝ
  dm_lower : Option ℝ

/-- `convert_params` with the partiality of `np.log10` tracked: the body has
no error handling whatsoever, so each magnitude field is exactly
`mag_diffOpt` of the corresponding argument. -/
noncomputable def convert_paramsOpt (x y f ex ey ef sigma : ℝ) : BinaryParamsOpt :=
  let sep := Real.sqrt (x ^ 2 + y ^ 2)
  let pa := 360 + rad2deg (arctan2 x y)
  let dm := mag_diffOpt f
  let sep_unc := Real.sqrt ((x / sep * ex) ^ 2 + (y / sep * ey) ^ 2) * sigma
  let pa_unc := rad2deg (Real.sqrt ((y / sep ^ 2 * ex) ^ 2 + (-x / sep ^ 2 * ey) ^ 2)) * sigma
  let dm_upper := mag_diffOpt (f + ef * sigma)
  let dm_lower := mag_diffOpt (f - ef * sigma)
  ⟨sep, pa, dm, sep_unc, pa_unc, dm_upper, dm_lower⟩

/-- `mag_diff` is strictly antitone on positive flux ratios. -/
lemma mag_diff_lt_mag_diff {a b : ℝ} (ha : 0 < a) (hab : a < b) :
    mag_diff b < mag_diff a := by
  unfold mag_diff
  have h := Real.logb_lt_logb (b := 10) (by norm_num) ha hab
  linarith

/-- **C3**: for `(x, y) ≠ (0, 0)` the separation is strictly positive, so
both divisions (by `sep` and by `sep ^ 2`) are well-defined and no
division-by-zero branch exists or is reached. -/
theorem convert_params_sep_pos (x y f ex ey ef sigma : ℝ)
    (h : (x, y) ≠ ((0 : ℝ), (0 : ℝ))) :
    0 < (convert_params x y f ex ey ef sigma).sep ∧
    (convert_params x y f ex ey ef sigma).sep ≠ 0 ∧
    (convert_params x y f ex ey ef sigma).sep ^ 2 ≠ 0 := by
  have hxy : x ≠ 0 ∨ y ≠ 0 := by
    by_contra hc
    push_neg at hc
    exact h (by simp [hc.1, hc.2])
  have hpos : 0 < x ^ 2 + y ^ 2 := by
    rcases hxy with hx | hy
    · positivity
    · positivity
  have hsep : 0 < (convert_params x y f ex ey ef sigma).sep := by
    show 0 < Real.sqrt (x ^ 2 + y ^ 2)
    exact Real.sqrt_pos.mpr hpos
  exact ⟨hsep, ne_of_gt hsep, by positivity⟩

/-- **C3** witness at `(x, y) = (3, 4)`. -/
theorem convert_params_sep_pos_witness :
    0 < (convert_params 3 4 1 1 1 1 1).sep ∧
    (convert_params 3 4 1 1 1 1 1).sep ≠ 0 ∧
    (convert_params 3 4 1 1 1 1 1).sep ^ 2 ≠ 0 :=
  convert_params_sep_pos 3 4 1 1 1 1 1 (by norm_num)

/-- **C4**: the separation is `sqrt (x² + y²)` and the separation
uncertainty is `sigma * sqrt ((x/sep*ex)² + (y/sep*ey)²)`. -/
theorem convert_params_sep_unc (x y f ex ey ef sigma : ℝ)
    (_h : (x, y) ≠ ((0 : ℝ), (0 : ℝ))) :
    (convert_params x y f ex ey ef sigma).sep = Real.sqrt (x ^ 2 + y ^ 2) ∧
    (convert_params x y f ex ey ef sigma).sep_unc =
      sigma * Real.sqrt ((x / Real.sqrt (x ^ 2 + y ^ 2) * ex) ^ 2
        + (y / Real.sqrt (x ^ 2 + y ^ 2) * ey) ^ 2) := by
  constructor
  · rfl
  · show Real.sqrt ((x / Real.sqrt (x ^ 2 + y ^ 2) * ex) ^ 2
        + (y / Real.sqrt (x ^ 2 + y ^ 2) * ey) ^ 2) * sigma = _
    ring

/-- **C4** witness at `(x, y) = (1, 2)`. -/
theorem convert_params_sep_unc_witness :
    (convert_params 1 2 1 1 1 1 1).sep = Real.sqrt (1 ^ 2 + 2 ^ 2) ∧
    (convert_params 1 2 1 1 1 1 1).sep_unc =
      1 * Real.sqrt ((1 / Real.sqrt (1 ^ 2 + 2 ^ 2) * 1) ^ 2
        + (2 / Real.sqrt (1 ^ 2 + 2 ^ 2) * 1) ^ 2) :=
  convert_params_sep_unc 1 2 1 1 1 1 1 (by norm_num)

/-- **C6**: the magnitude difference strictly decreases as the flux ratio
increases: `0 < f1 < f2` implies `mag_diff f2 < mag_diff f1`. -/
theorem mag_diff_strict_anti (f1 f2 : ℝ) (h1 : 0 < f1) (h12 : f1 < f2) :
    mag_diff f2 < mag_diff f1 :=
  mag_diff_lt_mag_diff h1 h12

/-- **C6** witness at `f1 = 1`, `f2 = 2`. -/
theorem mag_diff_strict_anti_witness : mag_diff 2 < mag_diff 1 :=
  mag_diff_strict_anti 1 2 (by norm_num) (by norm_num)

/-- **C7**: for `x = 0` and `y > 0` the returned position angle is exactly
`360` degrees: the `arctan2 0 y` branch yields `0` and the `360 +` offset
is applied. -/
theorem convert_params_pa_x_zero (y f ex ey ef sigma : ℝ) (hy : 0 < y) :
    (convert_params 0 y f ex ey ef sigma).pa = 360 := by
  show 360 + rad2deg (arctan2 0 y) = 360
  rw [arctan2, if_pos hy]
  simp [rad2deg]

/-- **C7** witness at `y = 2`. -/
theorem convert_params_pa_x_zero_witness :
    (convert_params 0 2 1 1 1 1 1).pa = 360 :=
  convert_params_pa_x_zero 2 1 1 1 1 1 (by norm_num)

/-- **C8**: `mag_diff 1 = -2.5 * log10 1` is exactly `0`. -/
theorem mag_diff_one : mag_diff 1 = 0 := by
  simp [mag_diff]

/-- **C9**: with the partiality of `np.log10` tracked in `Option`,
`mag_diffOpt f` is an error iff `f ≤ 0`; `convert_params` passes the three
magnitude values through unchanged (no handling intercepts the error), so
its `dm`, `dm_upper`, `dm_lower` fields error exactly on `f ≤ 0`,
`f + ef*sigma ≤ 0` and `f - ef*sigma ≤ 0` respectively. -/
theorem mag_diffOpt_none_iff (x y f ex ey ef sigma : ℝ) :
    (mag_diffOpt f = none ↔ f ≤ 0) ∧
    (convert_paramsOpt x y f ex ey ef sigma).dm = mag_diffOpt f ∧
    (convert_paramsOpt x y f ex ey ef sigma).dm_upper = mag_diffOpt (f + ef * sigma) ∧
    (convert_paramsOpt x y f ex ey ef sigma).dm_lower = mag_diffOpt (f - ef * sigma) ∧
    ((convert_paramsOpt x y f ex ey ef sigma).dm = none ↔ f ≤ 0) ∧
    ((convert_paramsOpt x y f ex ey ef sigma).dm_upper = none ↔ f + ef * sigma ≤ 0) ∧
    ((convert_paramsOpt x y f ex ey ef sigma).dm_lower = none ↔ f - ef * sigma ≤ 0) := by
  have key : ∀ g : ℝ, mag_diffOpt g = none ↔ g ≤ 0 := by
    intro g
    rw [mag_diffOpt, log10Opt]
    split_ifs with hg
    · constructor
      · intro hc
        simp at hc
      · intro hc
        linarith
    · simp [not_lt.mp hg]
  refine ⟨key f, rfl, rfl, rfl, ?_, ?_, ?_⟩
  · show mag_diffOpt f = none ↔ _
    exact key f
  · show mag_diffOpt (f + ef * sigma) = none ↔ _
    exact key _
  · show mag_diffOpt (f - ef * sigma) = none ↔ _
    exact key _

/-- **C10**: for `f > 0`, `ef > 0`, `sigma > 0` with `f - sigma*ef > 0`,
the returned magnitude values satisfy `dm_upper < dm < dm_lower`: the value
computed from the larger flux `f + ef*sigma` is the numerically smaller
magnitude difference, so the pair brackets `dm` asymmetrically. -/
theorem convert_params_dm_bracket (x y f ex ey ef sigma : ℝ)
    (hf : 0 < f) (hef : 0 < ef) (hs : 0 < sigma) (hlow : 0 < f - ef * sigma) :
    (convert_params x y f ex ey ef sigma).dm_upper < (convert_params x y f ex ey ef sigma).dm ∧
    (convert_params x y f ex ey ef sigma).dm < (convert_params x y f ex ey ef sigma).dm_lower := by
  constructor
  · show mag_diff (f + ef * sigma) < mag_diff f
    exact mag_diff_lt_mag_diff hf (by nlinarith)
  · show mag_diff f < mag_diff (f - ef * sigma)
    exact mag_diff_lt_mag_diff hlow (by nlinarith)

/-- **C10** witness at `f = 1`, `ef = 1/4`, `sigma = 1`. -/
theorem convert_params_dm_bracket_witness :
    (convert_params 3 4 1 1 1 (1/4) 1).dm_upper < (convert_params 3 4 1 1 1 (1/4) 1).dm ∧
    (convert_params 3 4 1 1 1 (1/4) 1).dm < (convert_params 3 4 1 1 1 (1/4) 1).dm_lower :=
  convert_params_dm_bracket 3 4 1 1 1 (1/4) 1 (by norm_num) (by norm_num) (by norm_num)
    (by norm_num)

/-- **C1** (counterexample): at `(x, y, ex, ey) = (3, 4, 1, 1)` with
`sigma = 1` the returned position-angle uncertainty is `36 / π` (the code
applies `np.rad2deg`), not the bare `sigma * sqrt ((y/sep²*ex)² +
(-x/sep²*ey)²) = 1/5` that the spec sentence literally states. -/
theorem convert_params_pa_unc_not_bare_formula :
    ¬ ((convert_params 3 4 1 1 1 0 1).pa_unc =
      1 * Real.sqrt ((4 / Real.sqrt ((3:ℝ) ^ 2 + 4 ^ 2) ^ 2 * 1) ^ 2
        + (-3 / Real.sqrt ((3:ℝ) ^ 2 + 4 ^ 2) ^ 2 * 1) ^ 2)) := by
  have h25 : Real.sqrt ((3:ℝ) ^ 2 + 4 ^ 2) = 5 := by
    rw [show (3:ℝ) ^ 2 + 4 ^ 2 = 5 ^ 2 by norm_num]
    exact Real.sqrt_sq (by norm_num)
  have hin : ((4:ℝ) / Real.sqrt ((3:ℝ) ^ 2 + 4 ^ 2) ^ 2 * 1) ^ 2
      + ((-3:ℝ) / Real.sqrt ((3:ℝ) ^ 2 + 4 ^ 2) ^ 2 * 1) ^ 2 = (1 / 5) ^ 2 := by
    rw [h25]; norm_num
  have hs : Real.sqrt (((4:ℝ) / Real.sqrt ((3:ℝ) ^ 2 + 4 ^ 2) ^ 2 * 1) ^ 2
      + ((-3:ℝ) / Real.sqrt ((3:ℝ) ^ 2 + 4 ^ 2) ^ 2 * 1) ^ 2) = 1 / 5 := by
    rw [hin]; exact Real.sqrt_sq (by norm_num)
  have hL : (convert_params 3 4 1 1 1 0 1).pa_unc = 36 / π := by
    show rad2deg (Real.sqrt (((4:ℝ) / Real.sqrt ((3:ℝ) ^ 2 + 4 ^ 2) ^ 2 * 1) ^ 2
      + ((-3:ℝ) / Real.sqrt ((3:ℝ) ^ 2 + 4 ^ 2) ^ 2 * 1) ^ 2)) * 1 = 36 / π
    rw [hs, rad2deg]
    field_simp
    ring
  intro hc
  rw [hL, hs] at hc
  rw [div_eq_iff (ne_of_gt Real.pi_pos)] at hc
  have := Real.pi_lt_d6
  nlinarith

/-- **C1** (amended): the position-angle uncertainty equals
`sigma * ((180/π) * sqrt ((y/sep²*ex)² + (-x/sep²*ey)²))`, i.e. the spec's
first-order propagation formula converted from radians to degrees. -/
theorem convert_params_pa_unc_deg (x y f ex ey ef sigma : ℝ)
    (_h : (x, y) ≠ ((0 : ℝ), (0 : ℝ))) :
    (convert_params x y f ex ey ef sigma).pa_unc =
      sigma * ((180 / π) * Real.sqrt ((y / Real.sqrt (x ^ 2 + y ^ 2) ^ 2 * ex) ^ 2
        + (-x / Real.sqrt (x ^ 2 + y ^ 2) ^ 2 * ey) ^ 2)) := by
  show rad2deg (Real.sqrt ((y / Real.sqrt (x ^ 2 + y ^ 2) ^ 2 * ex) ^ 2
      + (-x / Real.sqrt (x ^ 2 + y ^ 2) ^ 2 * ey) ^ 2)) * sigma = _
  rw [rad2deg]
  ring

/-- **C1** witness at `(x, y, ex, ey) = (3, 4, 1, 1)`, `sigma = 1`. -/
theorem convert_params_pa_unc_deg_witness :
    (convert_params 3 4 1 1 1 0 1).pa_unc =
      1 * ((180 / π) * Real.sqrt ((4 / Real.sqrt ((3:ℝ) ^ 2 + 4 ^ 2) ^ 2 * 1) ^ 2
        + (-3 / Real.sqrt ((3:ℝ) ^ 2 + 4 ^ 2) ^ 2 * 1) ^ 2)) :=
  convert_params_pa_unc_deg 3 4 1 1 1 0 1 (by norm_num)

/-- `arctan2` is invariant under scaling both arguments by a positive
factor (used for the polar round-trip with radius `s > 0`). -/
lemma arctan2_mul_left {s : ℝ} (hs : 0 < s) (a b : ℝ) :
    arctan2 (s * a) (s * b) = arctan2 a b := by
  have hdiv : s * a / (s * b) = a / b := mul_div_mul_left a b (ne_of_gt hs)
  have h1 : (0 < s * b) ↔ (0 < b) := by
    constructor
    · intro hsb
      by_contra hb
      push_neg at hb
      nlinarith
    · exact fun hb => mul_pos hs hb
  have h2 : (s * b < 0) ↔ (b < 0) := by
    constructor
    · intro hsb
      by_contra hb
      push_neg at hb
      nlinarith
    · exact fun hb => mul_neg_of_pos_of_neg hs hb
  have h3 : (0 ≤ s * a) ↔ (0 ≤ a) := by
    constructor
    · intro hsa
      by_contra ha
      push_neg at ha
      nlinarith
    · exact fun ha => mul_nonneg hs.le ha
  have h4 : (0 < s * a) ↔ (0 < a) := by
    constructor
    · intro hsa
      by_contra ha
      push_neg at ha
      nlinarith
    · exact fun ha => mul_pos hs ha
  have h5 : (s * a < 0) ↔ (a < 0) := by
    constructor
    · intro hsa
      by_contra ha
      push_neg at ha
      nlinarith
    · exact fun ha => mul_neg_of_pos_of_neg hs ha
  simp only [arctan2, hdiv, h1, h2, h3, h4, h5]

/-- On the principal interval `(-π, π]`, `arctan2 (sin θ) (cos θ)`
recovers `θ` exactly. -/
lemma arctan2_sin_cos_of_mem {θ : ℝ} (h1 : -π < θ) (h2 : θ ≤ π) :
    arctan2 (sin θ) (cos θ) = θ := by
  rcases lt_trichotomy 0 (cos θ) with hc | hc | hc
  · -- cos θ > 0 forces θ ∈ (-π/2, π/2)
    have hθ1 : -(π / 2) < θ := by
      by_contra hle
      push_neg at hle
      have hcn : cos (-θ) ≤ 0 :=
        Real.cos_nonpos_of_pi_div_two_le_of_le (by linarith) (by linarith)
      rw [Real.cos_neg] at hcn
      linarith
    have hθ2 : θ < π / 2 := by
      by_contra hle
      push_neg at hle
      have hcn : cos θ ≤ 0 :=
        Real.cos_nonpos_of_pi_div_two_le_of_le hle (by linarith)
      linarith
    rw [arctan2, if_pos hc, ← Real.tan_eq_sin_div_cos, Real.arctan_tan hθ1 hθ2]
  · -- cos θ = 0 forces θ = π/2 or θ = -π/2 inside (-π, π]
    obtain ⟨k, hk⟩ := Real.cos_eq_zero_iff.mp hc.symm
    have hπ : (0:ℝ) < π := Real.pi_pos
    have e1 : (-2:ℝ) < 2 * (k:ℝ) + 1 := by
      by_contra hle
      push_neg at hle
      nlinarith [hk ▸ h1]
    have e2 : (2 * (k:ℝ) + 1) ≤ 2 := by
      by_contra hlt
      push_neg at hlt
      nlinarith [hk ▸ h2]
    have hkk : k = 0 ∨ k = -1 := by
      have e1' : (-2:ℤ) < 2 * k + 1 := by exact_mod_cast e1
      have e2' : (2 * k + 1 : ℤ) ≤ 2 := by exact_mod_cast e2
      omega
    rcases hkk with hk0 | hk1
    · subst hk0
      have hθ : θ = π / 2 := by
        rw [hk]
        push_cast
        ring
      subst hθ
      rw [Real.sin_pi_div_two, Real.cos_pi_div_two, arctan2]
      rw [if_neg (lt_irrefl 0), if_neg (lt_irrefl 0), if_pos one_pos]
    · subst hk1
      have hθ : θ = -(π / 2) := by
        rw [hk]
        push_cast
        ring
      subst hθ
      rw [Real.sin_neg, Real.cos_neg, Real.sin_pi_div_two, Real.cos_pi_div_two, arctan2]
      rw [if_neg (lt_irrefl 0), if_neg (lt_irrefl 0),
        if_neg (show ¬ (0:ℝ) < -1 by norm_num), if_pos (show (-1:ℝ) < 0 by norm_num)]
  · -- cos θ < 0
    have hπ : (0:ℝ) < π := Real.pi_pos
    rcases le_or_lt 0 (sin θ) with hsin | hsin
    · -- sin θ ≥ 0 forces θ ∈ (π/2, π]
      have hθ1 : π / 2 < θ := by
        rcases le_or_lt θ (π / 2) with hle | hgt
        · exfalso
          rcases le_or_lt (-(π / 2)) θ with hge | hlt
          · have : 0 ≤ cos θ := Real.cos_nonneg_of_mem_Icc ⟨hge, hle⟩
            linarith
          · have : sin θ < 0 :=
              Real.sin_neg_of_neg_of_neg_pi_lt (by linarith) h1
            linarith
        · exact hgt
      have ht : Real.tan (θ - π) = Real.tan θ := by
        have hper := Real.tan_periodic (θ - π)
        rw [sub_add_cancel] at hper
        exact hper.symm
      rw [arctan2, if_neg (not_lt.mpr hc.le), if_pos hc, if_pos hsin,
        ← Real.tan_eq_sin_div_cos, ← ht,
        Real.arctan_tan (by linarith) (by linarith)]
      ring
    · -- sin θ < 0 forces θ ∈ (-π, -π/2)
      have hθ1 : θ < -(π / 2) := by
        by_contra hge
        push_neg at hge
        rcases le_or_lt θ (π / 2) with hle | hgt
        · have : 0 ≤ cos θ := Real.cos_nonneg_of_mem_Icc ⟨hge, hle⟩
          linarith
        · rcases eq_or_lt_of_le h2 with heq | hlt
          · rw [heq, Real.sin_pi] at hsin
            exact absurd hsin (lt_irrefl 0)
          · have : 0 < sin θ := Real.sin_pos_of_pos_of_lt_pi (by linarith) hlt
            linarith
      have ht : Real.tan (θ + π) = Real.tan θ := Real.tan_periodic θ
      rw [arctan2, if_neg (not_lt.mpr hc.le), if_pos hc, if_neg (not_le.mpr hsin),
        ← Real.tan_eq_sin_div_cos, ← ht,
        Real.arctan_tan (by linarith) (by linarith)]
      ring

/-- For every `θ`, `arctan2 (sin θ) (cos θ)` equals `θ` up to an integer
multiple of `2π`. -/
lemma arctan2_sin_cos (θ : ℝ) :
    ∃ k : ℤ, arctan2 (sin θ) (cos θ) = θ + 2 * π * k := by
  have hp : (0:ℝ) < 2 * π := by positivity
  set n : ℤ := toIocDiv hp (-π) θ with hn
  have hself := self_sub_toIocMod hp (-π) θ
  rw [zsmul_eq_mul] at hself
  have heq : toIocMod hp (-π) θ = θ - n * (2 * π) := by linarith
  have hsin : sin (toIocMod hp (-π) θ) = sin θ := by
    rw [heq, show θ - (n:ℝ) * (2 * π) = θ + (-n : ℤ) * (2 * π) by push_cast; ring,
      Real.sin_add_int_mul_two_pi]
  have hcos : cos (toIocMod hp (-π) θ) = cos θ := by
    rw [heq, show θ - (n:ℝ) * (2 * π) = θ + (-n : ℤ) * (2 * π) by push_cast; ring,
      Real.cos_add_int_mul_two_pi]
  obtain ⟨hl, hr⟩ := toIocMod_mem_Ioc hp (-π) θ
  refine ⟨-n, ?_⟩
  rw [← hsin, ← hcos, arctan2_sin_cos_of_mem hl (by linarith), heq]
  push_cast
  ring

/-- **C5**: round-trip: for `s > 0`, feeding `x = s·sin θ`, `y = s·cos θ`
into `convert_params` returns separation exactly `s` and a position angle
congruent to `θ` (converted to degrees) modulo 360. -/
theorem convert_params_roundtrip (s θ f ex ey ef sigma : ℝ) (hs : 0 < s) :
    (convert_params (s * sin θ) (s * cos θ) f ex ey ef sigma).sep = s ∧
    ∃ k : ℤ, (convert_params (s * sin θ) (s * cos θ) f ex ey ef sigma).pa
      = rad2deg θ + 360 * k := by
  constructor
  · show Real.sqrt ((s * sin θ) ^ 2 + (s * cos θ) ^ 2) = s
    have hpyth : (s * sin θ) ^ 2 + (s * cos θ) ^ 2 = s ^ 2 := by
      have h := Real.sin_sq_add_cos_sq θ
      nlinarith [h]
    rw [hpyth]
    exact Real.sqrt_sq hs.le
  · obtain ⟨k, hk⟩ := arctan2_sin_cos θ
    refine ⟨k + 1, ?_⟩
    show 360 + rad2deg (arctan2 (s * sin θ) (s * cos θ)) = _
    rw [arctan2_mul_left hs, hk, rad2deg, rad2deg]
    have hπ : π ≠ 0 := ne_of_gt Real.pi_pos
    push_cast
    field_simp
    ring

/-- **C5** witness at `s = 2`, `θ = 0`. -/
theorem convert_params_roundtrip_witness :
    (convert_params (2 * sin 0) (2 * cos 0) 1 1 1 1 1).sep = 2 ∧
    ∃ k : ℤ, (convert_params (2 * sin 0) (2 * cos 0) 1 1 1 1 1).pa
      = rad2deg 0 + 360 * k :=
  convert_params_roundtrip 2 0 1 1 1 1 1 (by norm_num)

/-- Cubic Taylor lower bound for `arctan` on nonnegative arguments,
obtained by integrating `1 - x² ≤ 1/(1+x²)` over `[0, t]`. -/
lemma arctan_ge_cubic {t : ℝ} (h0 : 0 ≤ t) : t - t ^ 3 / 3 ≤ arctan t := by
  have hval : arctan t = ∫ x in (0:ℝ)..t, 1 / (1 + x ^ 2) := by
    rw [integral_one_div_one_add_sq, Real.arctan_zero, sub_zero]
  have hint1 : IntervalIntegrable (fun x : ℝ => 1 - x ^ 2) MeasureTheory.volume 0 t :=
    (continuous_const.sub (continuous_pow 2)).intervalIntegrable 0 t
  have hint2 : IntervalIntegrable (fun x : ℝ => 1 / (1 + x ^ 2)) MeasureTheory.volume 0 t := by
    apply Continuous.intervalIntegrable
    exact continuous_const.div (by continuity) (fun x => by positivity)
  have hmono := intervalIntegral.integral_mono_on (μ := MeasureTheory.volume) h0 hint1 hint2
    (fun x _ => by
      rw [le_div_iff₀ (by positivity)]
      nlinarith [sq_nonneg (x ^ 2)])
  have hpoly : (∫ x in (0:ℝ)..t, (1 - x ^ 2)) = t - t ^ 3 / 3 := by
    rw [intervalIntegral.integral_sub intervalIntegrable_const
      ((continuous_pow 2).intervalIntegrable 0 t), integral_one, integral_pow]
    norm_num
  rw [hval]
  calc t - t ^ 3 / 3 = ∫ x in (0:ℝ)..t, (1 - x ^ 2) := hpoly.symm
    _ ≤ _ := hmono

/-- Quintic Taylor upper bound for `arctan` on nonnegative arguments,
obtained by integrating `1/(1+x²) ≤ 1 - x² + x⁴` over `[0, t]`. -/
lemma arctan_le_quintic {t : ℝ} (h0 : 0 ≤ t) :
    arctan t ≤ t - t ^ 3 / 3 + t ^ 5 / 5 := by
  have hval : arctan t = ∫ x in (0:ℝ)..t, 1 / (1 + x ^ 2) := by
    rw [integral_one_div_one_add_sq, Real.arctan_zero, sub_zero]
  have hint2 : IntervalIntegrable (fun x : ℝ => 1 / (1 + x ^ 2)) MeasureTheory.volume 0 t := by
    apply Continuous.intervalIntegrable
    exact continuous_const.div (by continuity) (fun x => by positivity)
  have hint3 : IntervalIntegrable (fun x : ℝ => 1 - x ^ 2 + x ^ 4) MeasureTheory.volume 0 t :=
    ((continuous_const.sub (continuous_pow 2)).add (continuous_pow 4)).intervalIntegrable 0 t
  have hmono := intervalIntegral.integral_mono_on (μ := MeasureTheory.volume) h0 hint2 hint3
    (fun x _ => by
      rw [div_le_iff₀ (by positivity)]
      nlinarith [sq_nonneg (x ^ 3)])
  have hpoly : (∫ x in (0:ℝ)..t, (1 - x ^ 2 + x ^ 4)) = t - t ^ 3 / 3 + t ^ 5 / 5 := by
    rw [intervalIntegral.integral_add
      ((continuous_const.sub (continuous_pow 2)).intervalIntegrable 0 t)
      ((continuous_pow 4).intervalIntegrable 0 t),
      intervalIntegral.integral_sub intervalIntegrable_const
      ((continuous_pow 2).intervalIntegrable 0 t), integral_one, integral_pow, integral_pow]
    norm_num
  rw [hval]
  calc (∫ x in (0:ℝ)..t, 1 / (1 + x ^ 2)) ≤ ∫ x in (0:ℝ)..t, (1 - x ^ 2 + x ^ 4) := hmono
    _ = _ := hpoly

/-- **C2** (counterexample): at the spec's literal input `x = +258.7`,
`y = 107.3`, the returned position angle exceeds 360 degrees (it is
`360 + rad2deg (arctan (258.7/107.3))` ≈ 427.5°), so it is not
approximately 292.6°; the quoted angle belongs to `x = -258.7`. -/
theorem convert_params_known_scenario_cex :
    ¬ (|(convert_params 258.7 107.3 0.024 0 0 0 1).sep - 280.0| ≤ 1/2 ∧
       |(convert_params 258.7 107.3 0.024 0 0 0 1).pa - 292.6| ≤ 1/2 ∧
       |(convert_params 258.7 107.3 0.024 0 0 0 1).dm - 4.0| ≤ 1/2) := by
  rintro ⟨-, hpa, -⟩
  have harc : 0 < arctan ((258.7:ℝ) / 107.3) := by
    have h := Real.arctan_strictMono (show (0:ℝ) < 258.7 / 107.3 by norm_num)
    rwa [Real.arctan_zero] at h
  have hval : (convert_params 258.7 107.3 0.024 0 0 0 1).pa
      = 360 + rad2deg (arctan ((258.7:ℝ) / 107.3)) := by
    show 360 + rad2deg (arctan2 258.7 107.3) = _
    rw [arctan2, if_pos (show (0:ℝ) < 107.3 by norm_num)]
  have hd : 0 < rad2deg (arctan ((258.7:ℝ) / 107.3)) := by
    rw [rad2deg]
    exact mul_pos harc (by positivity)
  rw [hval, abs_le] at hpa
  linarith [hpa.2]

/-- **C2** (amended): the known scenario with the right-ascension offset
sign the quoted angle requires: for `x = -258.7`, `y = 107.3`, `f = 0.024`
and any uncertainties `ex, ey, ef` and any `sigma`, `convert_params`
returns separation within 1/2 mas of 280.0, position angle within 1/2
degree of 292.6, and magnitude difference within 1/2 mag of 4.0. -/
theorem convert_params_known_scenario (ex ey ef sigma : ℝ) :
    |(convert_params (-258.7) 107.3 0.024 ex ey ef sigma).sep - 280.0| ≤ 1/2 ∧
    |(convert_params (-258.7) 107.3 0.024 ex ey ef sigma).pa - 292.6| ≤ 1/2 ∧
    |(convert_params (-258.7) 107.3 0.024 ex ey ef sigma).dm - 4.0| ≤ 1/2 := by
  refine ⟨?_, ?_, ?_⟩
  · have hv : (convert_params (-258.7) 107.3 0.024 ex ey ef sigma).sep
        = Real.sqrt ((-258.7:ℝ) ^ 2 + 107.3 ^ 2) := rfl
    have hub : Real.sqrt ((-258.7:ℝ) ^ 2 + 107.3 ^ 2) ≤ 280.5 := by
      calc Real.sqrt ((-258.7:ℝ) ^ 2 + 107.3 ^ 2) ≤ Real.sqrt ((280.5:ℝ) ^ 2) :=
            Real.sqrt_le_sqrt (by norm_num)
        _ = 280.5 := Real.sqrt_sq (by norm_num)
    have hlb : (279.5:ℝ) ≤ Real.sqrt ((-258.7:ℝ) ^ 2 + 107.3 ^ 2) := by
      calc (279.5:ℝ) = Real.sqrt ((279.5:ℝ) ^ 2) := (Real.sqrt_sq (by norm_num)).symm
        _ ≤ Real.sqrt ((-258.7:ℝ) ^ 2 + 107.3 ^ 2) := Real.sqrt_le_sqrt (by norm_num)
    rw [hv, abs_le]
    constructor <;> linarith
  · have harc2 : arctan2 (-258.7) 107.3 = -arctan ((2587:ℝ) / 1073) := by
      rw [arctan2, if_pos (show (0:ℝ) < 107.3 by norm_num),
        show ((-258.7:ℝ) / 107.3) = -(2587 / 1073) by norm_num, Real.arctan_neg]
    have hAeq : arctan ((2587:ℝ) / 1073) = π / 2 - arctan ((1073:ℝ) / 2587) := by
      have h := Real.arctan_inv_of_pos (show (0:ℝ) < 2587 / 1073 by norm_num)
      rw [show ((2587:ℝ) / 1073)⁻¹ = 1073 / 2587 by norm_num] at h
      linarith
    have hlo : (1073:ℝ)/2587 - ((1073:ℝ)/2587) ^ 3 / 3 ≤ arctan ((1073:ℝ)/2587) :=
      arctan_ge_cubic (by norm_num)
    have hhi : arctan ((1073:ℝ)/2587)
        ≤ (1073:ℝ)/2587 - ((1073:ℝ)/2587) ^ 3 / 3 + ((1073:ℝ)/2587) ^ 5 / 5 :=
      arctan_le_quintic (by norm_num)
    have hLnum : (0.3909:ℝ) ≤ (1073:ℝ)/2587 - ((1073:ℝ)/2587) ^ 3 / 3 := by norm_num
    have hUnum : ((1073:ℝ)/2587 - ((1073:ℝ)/2587) ^ 3 / 3 + ((1073:ℝ)/2587) ^ 5 / 5 : ℝ)
        ≤ 0.3935 := by norm_num
    have hπ1 : (3.141592:ℝ) < π := Real.pi_gt_d6
    have hπ2 : π < 3.141593 := Real.pi_lt_d6
    have hπ0 : (0:ℝ) < π := Real.pi_pos
    have hAlo : π / 2 - 0.3935 ≤ arctan ((2587:ℝ) / 1073) := by
      rw [hAeq]; linarith
    have hAhi : arctan ((2587:ℝ) / 1073) ≤ π / 2 - 0.3909 := by
      rw [hAeq]; linarith
    have hval : (convert_params (-258.7) 107.3 0.024 ex ey ef sigma).pa
        = 360 - arctan ((2587:ℝ) / 1073) * (180 / π) := by
      show 360 + rad2deg (arctan2 (-258.7) 107.3) = _
      rw [harc2, rad2deg]
      ring
    have hdiv_lo : (66.9:ℝ) ≤ arctan ((2587:ℝ) / 1073) * (180 / π) := by
      rw [← mul_div_assoc, le_div_iff₀ hπ0]
      linarith
    have hdiv_hi : arctan ((2587:ℝ) / 1073) * (180 / π) ≤ 67.9 := by
      rw [← mul_div_assoc, div_le_iff₀ hπ0]
      linarith
    rw [hval, abs_le]
    constructor <;> linarith
  · have hb10 : (1:ℝ) < 10 := by norm_num
    have hn1 : (10:ℕ) ^ 136 < 24 ^ 100 := by norm_num
    have hn2 : (24:ℕ) ^ 100 < 10 ^ 144 := by norm_num
    have hr1 : ((10:ℝ) ^ (136:ℕ)) < 24 ^ (100:ℕ) := by exact_mod_cast hn1
    have hr2 : ((24:ℝ) ^ (100:ℕ)) < 10 ^ (144:ℕ) := by exact_mod_cast hn2
    have hsplit : (0.024:ℝ) ^ (100:ℕ) = 24 ^ (100:ℕ) / 10 ^ (300:ℕ) := by
      rw [show (0.024:ℝ) = 24 / 10 ^ (3:ℕ) by norm_num, div_pow, ← pow_mul]
    have h1 : ((10:ℝ) ^ (164:ℕ))⁻¹ < 0.024 ^ (100:ℕ) := by
      rw [hsplit, lt_div_iff₀ (by positivity)]
      calc ((10:ℝ) ^ (164:ℕ))⁻¹ * 10 ^ (300:ℕ) = 10 ^ (136:ℕ) := by
            rw [show (300:ℕ) = 164 + 136 by norm_num, pow_add,
              inv_mul_cancel_left₀ (by positivity)]
        _ < 24 ^ (100:ℕ) := hr1
    have h2 : (0.024:ℝ) ^ (100:ℕ) < ((10:ℝ) ^ (156:ℕ))⁻¹ := by
      rw [hsplit, div_lt_iff₀ (by positivity)]
      calc ((24:ℝ) ^ (100:ℕ)) < 10 ^ (144:ℕ) := hr2
        _ = ((10:ℝ) ^ (156:ℕ))⁻¹ * 10 ^ (300:ℕ) := by
            rw [show (300:ℕ) = 156 + 144 by norm_num, pow_add,
              inv_mul_cancel_left₀ (by positivity)]
    have hpow_lo : Real.logb 10 (((10:ℝ) ^ (164:ℕ))⁻¹)
        < Real.logb 10 ((0.024:ℝ) ^ (100:ℕ)) :=
      Real.logb_lt_logb hb10 (by positivity) h1
    have hpow_hi : Real.logb 10 ((0.024:ℝ) ^ (100:ℕ))
        < Real.logb 10 (((10:ℝ) ^ (156:ℕ))⁻¹) :=
      Real.logb_lt_logb hb10 (by norm_num) h2
    have hv164 : Real.logb 10 (((10:ℝ) ^ (164:ℕ))⁻¹) = -164 := by
      rw [Real.logb_inv, Real.logb_pow, Real.logb_self_eq_one hb10]
      norm_num
    have hv156 : Real.logb 10 (((10:ℝ) ^ (156:ℕ))⁻¹) = -156 := by
      rw [Real.logb_inv, Real.logb_pow, Real.logb_self_eq_one hb10]
      norm_num
    have hlogpow : Real.logb 10 ((0.024:ℝ) ^ (100:ℕ)) = 100 * Real.logb 10 0.024 := by
      rw [Real.logb_pow]
      norm_num
    rw [hv164, hlogpow] at hpow_lo
    rw [hv156, hlogpow] at hpow_hi
    have hdm : (convert_params (-258.7) 107.3 0.024 ex ey ef sigma).dm
        = -2.5 * Real.logb 10 0.024 := rfl
    rw [hdm, abs_le]
    constructor <;> linarith
